import Mathlib

/-!
Verification of the media-optimization transfer engine and closed-loop agent.

The Python sources are shallowly embedded:
* compositions (`dict` from supplement name to volume) become functions
  `String → ℤ` that are `0` outside the supplement-name list;
* proposed (possibly fractional) volumes are `ℚ`;
* Python's `round` (banker's rounding) is `pyRound`, Python's `int()`
  truncation toward zero is `pyInt`;
* the unbounded `while` loop inside `apply_constraints` becomes the
  fuel-indexed iteration `fixFiller`; `apply_constraints` runs it with fuel
  `posMeasure` (the sum of the positive parts of the clamped values), which
  the termination theorem shows is enough fuel for the loop to reach its
  exit condition whenever the reduction step `delta` is at least 1 — that
  is, exactly when the Python loop terminates.
-/

/-- Volume constraints from `monomer/transfers.py`. -/
def WELL_VOLUME_UL : ℤ := 180

def MIN_SUPPLEMENT_UL : ℤ := 1

def MAX_SUPPLEMENT_UL : ℤ := 90

def MIN_NOVEL_BIO_UL : ℤ := 90

def DELTA_UL : ℤ := 10

/-- The list `SUPPLEMENT_NAMES` from `monomer/transfers.py`. -/
def SUPPLEMENT_NAMES : List String := ["Glucose", "NaCl", "MgSO4"]

/-- The map `REAGENT_WELLS` from `monomer/transfers.py` (dict as a function;
the empty string stands for a key that is absent). -/
def REAGENT_WELLS : String → String := fun n =>
  if n = "Glucose" then "A1"
  else if n = "NaCl" then "B1"
  else if n = "MgSO4" then "C1"
  else if n = "Novel_Bio" then "D1"
  else ""

/-- Python's built-in `round` on a rational: round half to even. -/
def pyRound (q : ℚ) : ℤ :=
  if Int.fract q < 1 / 2 then ⌊q⌋
  else if 1 / 2 < Int.fract q then ⌊q⌋ + 1
  else if ⌊q⌋ % 2 = 0 then ⌊q⌋ else ⌊q⌋ + 1

/-- Python's `int()` applied to a number: truncation toward zero. -/
def pyInt (q : ℚ) : ℤ :=
  if 0 ≤ q then ⌊q⌋ else -⌊-q⌋

/-- Sum of the values of a composition over the supplement-name list
(`sum(result.values())` — the dict keys are exactly the names). -/
def compSum (names : List String) (f : String → ℤ) : ℤ :=
  (names.map f).sum

/-- Function `compute_novel_bio` from `monomer/transfers.py`:
`well_volume - sum(supplements.values())`. -/
def compute_novel_bio (names : List String) (f : String → ℤ)
    (well_volume : ℤ) : ℤ :=
  well_volume - compSum names f

/-- The clamping of one proposed value (`apply_constraints`, step 1–3):
`vol = int(round(v)); if vol < min_ul: vol = 0; vol = min(vol, max_ul)`. -/
def clampOne (min_ul max_ul : ℤ) (q : ℚ) : ℤ :=
  min (if pyRound q < min_ul then 0 else pyRound q) max_ul

/-- The clamped composition built by the first loop of `apply_constraints`;
names outside the dict's key list are fixed at `0`. -/
def clampAll (names : List String) (min_ul max_ul : ℤ)
    (s : String → ℚ) : String → ℤ :=
  fun n => if n ∈ names then clampOne min_ul max_ul (s n) else 0

/-- Python's `max(names, key=f)`: the first name attaining the largest
value (`none` only for an empty list, where Python would raise). -/
def pyMaxBy (f : String → ℤ) (names : List String) : Option String :=
  match names with
  | [] => none
  | n :: ns => some (ns.foldl (fun best x => if f best < f x then x else best) n)

/-- One pass of the filler-repair `while` loop of `apply_constraints`,
fuel-indexed: while `novel_bio < min_novel_bio`, take the largest factor;
stop if it is already `≤ 0`, otherwise lower it by `delta` (floored at 0). -/
def fixFiller (names : List String) (min_novel_bio well_volume delta : ℤ) :
    ℕ → (String → ℤ) → (String → ℤ)
  | 0, f => f
  | fuel + 1, f =>
    if compute_novel_bio names f well_volume < min_novel_bio then
      match pyMaxBy f names with
      | none => f
      | some largest =>
        if f largest ≤ 0 then f
        else
          fixFiller names min_novel_bio well_volume delta fuel
            (Function.update f largest (max 0 (f largest - delta)))
    else f

/-- Sum of the positive parts of a composition: the fuel bound under which
the repair loop of `apply_constraints` is run (sufficient when `1 ≤ delta`,
see the termination theorem). -/
def posMeasure (names : List String) (f : String → ℤ) : ℕ :=
  (names.map (fun n => (f n).toNat)).sum

/-- Function `apply_constraints` from `monomer/transfers.py`. -/
def apply_constraints (s : String → ℚ) (names : List String)
    (min_ul max_ul min_novel_bio well_volume delta : ℤ) : String → ℤ :=
  fixFiller names min_novel_bio well_volume delta
    (posMeasure names (clampAll names min_ul max_ul s))
    (clampAll names min_ul max_ul s)

/-- Function `apply_constraints` at its default parameters — every call site in the
repository uses the defaults; the spec names this `solve`. -/
def solve (s : String → ℚ) : String → ℤ :=
  apply_constraints s SUPPLEMENT_NAMES MIN_SUPPLEMENT_UL MAX_SUPPLEMENT_UL
    MIN_NOVEL_BIO_UL WELL_VOLUME_UL DELTA_UL

/-- The exit condition of the filler-repair loop: the filler already meets
the floor, or the name list is empty, or the largest factor is `≤ 0`. -/
def fixStopped (names : List String) (min_novel_bio well_volume : ℤ)
    (f : String → ℤ) : Prop :=
  min_novel_bio ≤ compute_novel_bio names f well_volume ∨
  pyMaxBy f names = none ∨
  ∃ m, pyMaxBy f names = some m ∧ f m ≤ 0

/-- The all-zero proposed mapping, used as a concrete instance. -/
def zeroInput : String → ℚ := fun _ => 0

/-- The constant `LEARNING_RATE` from `examples/basic_agent.py`. -/
def LEARNING_RATE : ℤ := 5

/-- The gradient computed in step 5 of `run_agent` in `basic_agent.py`:
average of the two replicate responses minus the center response. -/
def gradientOf (center_od r1 r2 : ℚ) : ℚ :=
  (r1 + r2) / 2 - center_od

/-- The step `adjustment = int(LEARNING_RATE * gradient)` from `basic_agent.py`;
Python's `int()` truncates toward zero (`pyInt`). -/
def agentAdjustment (center_od r1 r2 : ℚ) : ℤ :=
  pyInt ((LEARNING_RATE : ℚ) * gradientOf center_od r1 r2)

/-- The raw updated center built by step 5 of `run_agent`
(`new_center[supp] = center[supp] + adjustment` for each supplement). -/
def agentRawCenter (center : String → ℤ) (center_od : ℚ)
    (pert : String → ℚ × ℚ) : String → ℤ :=
  fun n =>
    if n ∈ SUPPLEMENT_NAMES then
      center n + agentAdjustment center_od (pert n).1 (pert n).2
    else center n

/-- The step `center = apply_constraints(new_center)` — the next center composition
produced at the end of an iteration of `run_agent`. -/
def agentNextCenter (center : String → ℤ) (center_od : ℚ)
    (pert : String → ℚ × ℚ) : String → ℤ :=
  solve (fun n => ((agentRawCenter center center_od pert n : ℤ) : ℚ))

/-- The starting composition of `basic_agent.py`
(`{"Glucose": 20, "NaCl": 10, "MgSO4": 15}`, already solver-feasible). -/
def startCenter : String → ℤ := fun n =>
  if n = "Glucose" then 20 else if n = "NaCl" then 10
  else if n = "MgSO4" then 15 else 0

/-- Replicate responses with Glucose reps `(1/2, 1/2)`: all values are
exactly representable in binary floating point, so the Python floats
behave exactly like these rationals. -/
def cexPert : String → ℚ × ℚ := fun n =>
  if n = "Glucose" then (1/2, 1/2) else (0, 0)

/-- An integer composition viewed as a proposed (rational) mapping — the
agent always feeds integer dicts back into `apply_constraints`. -/
def intInput (f : String → ℤ) : String → ℚ := fun n => ((f n : ℤ) : ℚ)

/-- The clamp phase of `apply_constraints` on an integer input
(`int(round(v)) = v` there). -/
def clampAllInt (f : String → ℤ) : String → ℤ := fun n =>
  if n ∈ SUPPLEMENT_NAMES then
    min (if f n < MIN_SUPPLEMENT_UL then 0 else f n) MAX_SUPPLEMENT_UL
  else 0

/-- The Solver restricted to integer inputs (rational arithmetic eliminated,
so concrete runs reduce inside the kernel). -/
def solveInt (f : String → ℤ) : String → ℤ :=
  fixFiller SUPPLEMENT_NAMES MIN_NOVEL_BIO_UL WELL_VOLUME_UL DELTA_UL
    (posMeasure SUPPLEMENT_NAMES (clampAllInt f)) (clampAllInt f)

/-- A liquid transfer `[source_well, dest_well, volume_uL]` from
`generate_transfer_array`. -/
structure Transfer where
  src : String
  dst : String
  vol : ℤ
deriving DecidableEq, Repr

/-- Function `make_perturbed` from `monomer/transfers.py`: copy the center, add
`delta` on one axis, and re-apply `apply_constraints` (with the Solver's
default parameters). -/
def make_perturbed (center : String → ℤ) (name : String) (delta : ℤ) :
    String → ℤ :=
  solve (intInput (fun n => if n = name then center name + delta else center n))

/-- The transfers emitted for one destination row of
`generate_transfer_array`: a `Novel_Bio` (filler) transfer when the filler
volume is positive, then one transfer per supplement whose volume is
positive, in `SUPPLEMENT_NAMES` order. -/
def rowTransfers (comp : String → ℤ) (row col : String) : List Transfer :=
  (if 0 < compute_novel_bio SUPPLEMENT_NAMES comp WELL_VOLUME_UL then
    [⟨REAGENT_WELLS "Novel_Bio", row ++ col,
      compute_novel_bio SUPPLEMENT_NAMES comp WELL_VOLUME_UL⟩]
  else []) ++
  SUPPLEMENT_NAMES.filterMap (fun n =>
    if 0 < comp n then some ⟨REAGENT_WELLS n, row ++ col, comp n⟩ else none)

/-- The `order_map` lookup of `generate_transfer_array`: a fixed source
priority `Novel_Bio (D1) = 0, MgSO4 (C1) = 1, NaCl (B1) = 2,
Glucose (A1) = 3`, with `99` for any other source
(`order_map.get(t[0], 99)`). -/
def sourceOrderIndex (w : String) : ℕ :=
  if w = REAGENT_WELLS "Novel_Bio" then 0
  else if w = REAGENT_WELLS "MgSO4" then 1
  else if w = REAGENT_WELLS "NaCl" then 2
  else if w = REAGENT_WELLS "Glucose" then 3
  else 99

/-- Stable insertion by `sourceOrderIndex` (Python's `list.sort` is
stable: an element inserted from the left goes before entries of equal
key, which came later in the original list). -/
def insertBySrc (t : Transfer) : List Transfer → List Transfer
  | [] => [t]
  | u :: us =>
    if sourceOrderIndex t.src ≤ sourceOrderIndex u.src then t :: u :: us
    else u :: insertBySrc t us

/-- The stable sort `transfers.sort(key=lambda t: order_map.get(t[0], 99))`. -/
def sortBySrc : List Transfer → List Transfer
  | [] => []
  | t :: ts => insertBySrc t (sortBySrc ts)

/-- Function `generate_transfer_array` from `monomer/transfers.py`; the Python loop
over `perturbation_rows = [("C","D","Glucose"), ("E","F","NaCl"),
("G","H","MgSO4")]` is unrolled. -/
def generate_transfer_array (center : String → ℤ) (column_index : ℕ)
    (delta : ℤ) : List Transfer :=
  sortBySrc
    (⟨REAGENT_WELLS "Novel_Bio", "A" ++ toString column_index,
        WELL_VOLUME_UL⟩ ::
      (rowTransfers center "B" (toString column_index) ++
        (rowTransfers (make_perturbed center "Glucose" delta) "C"
            (toString column_index) ++
          rowTransfers (make_perturbed center "Glucose" delta) "D"
            (toString column_index) ++
          rowTransfers (make_perturbed center "NaCl" delta) "E"
            (toString column_index) ++
          rowTransfers (make_perturbed center "NaCl" delta) "F"
            (toString column_index) ++
          rowTransfers (make_perturbed center "MgSO4" delta) "G"
            (toString column_index) ++
          rowTransfers (make_perturbed center "MgSO4" delta) "H"
            (toString column_index))))

/-- Total volume drawn from one source well across a transfer list. -/
def sumVolFrom (ts : List Transfer) (w : String) : ℤ :=
  ((ts.filter (fun t => t.src == w)).map Transfer.vol).sum

/-- The center composition `{Glucose: 90}` used to refute the
volume-ordering reading of the emission order. -/
def cexCenter : String → ℤ := fun n => if n = "Glucose" then 90 else 0

/-- Tip class derived from a transfer volume in
`compute_tip_consumption`: `p50` for volume ≤ 50, `p200` for ≤ 200,
`p1000` otherwise. -/
def tipClass (v : ℤ) : String :=
  if v ≤ 50 then "p50" else if v ≤ 200 then "p200" else "p1000"

/-- Python `set.add`: insert a source well once. -/
def addOnce (l : List String) (x : String) : List String :=
  if x ∈ l then l else l ++ [x]

/-- The fold over the transfer list performed by
`compute_tip_consumption`: reusable sources accumulate into a per-class
set, all other transfers bump a per-class fresh-tip counter; at the end
each class counts `len(set) + fresh`. -/
def tipConsAux (reuse : List String) :
    List Transfer → (String → List String) → (String → ℕ) → String → ℕ
  | [], sets, singles, c => (sets c).length + singles c
  | t :: ts, sets, singles, c =>
    if t.src ∈ reuse then
      tipConsAux reuse ts
        (Function.update sets (tipClass t.vol)
          (addOnce (sets (tipClass t.vol)) t.src)) singles c
    else
      tipConsAux reuse ts sets
        (Function.update singles (tipClass t.vol)
          (singles (tipClass t.vol) + 1)) c

/-- Function `compute_tip_consumption` from `monomer/transfers.py` (result dict as
a function from tip-class name to count). -/
def compute_tip_consumption (ts : List Transfer) (reuse : List String) :
    String → ℕ :=
  tipConsAux reuse ts (fun _ => []) (fun _ => 0)

/-- Specification-side count: the distinct reusable source wells that
appear with a given tip class. -/
def reusableSrcsOfClass (ts : List Transfer) (reuse : List String)
    (c : String) : List String :=
  (ts.filter (fun t => decide (t.src ∈ reuse) &&
    decide (tipClass t.vol = c))).map Transfer.src

/-- Specification-side count: the transfers of a given tip class whose
source is not reusable (one fresh tip each). -/
def freshTransfersOfClass (ts : List Transfer) (reuse : List String)
    (c : String) : ℕ :=
  (ts.filter (fun t => !decide (t.src ∈ reuse) &&
    decide (tipClass t.vol = c))).length

/-- Default poll interval (seconds) from `monomer/workflows.py`. -/
def DAEMON_POLL_INTERVAL : ℕ := 30

/-- Default per-workflow timeout (minutes) from `monomer/workflows.py`;
both agents also pass `timeout_minutes=180` explicitly. -/
def WORKFLOW_TIMEOUT_MINUTES : ℕ := 180

/-- The status domain of the execution boundary
(`pollStatus` contract: pending, running, completed, failed, cancelled). -/
inductive WorkStatus
  | pending
  | running
  | completed
  | failed
  | cancelled
deriving DecidableEq

/-- The wire string for each status. -/
def statusStr : WorkStatus → String
  | WorkStatus.pending => "pending"
  | WorkStatus.running => "running"
  | WorkStatus.completed => "completed"
  | WorkStatus.failed => "failed"
  | WorkStatus.cancelled => "cancelled"

/-- Terminal statuses as the spec lists them: completed, failed or
cancelled. -/
def terminalStatus (st : WorkStatus) : Prop :=
  st = WorkStatus.completed ∨ st = WorkStatus.failed ∨
    st = WorkStatus.cancelled

/-- The terminal-status test of `poll_workflow_completion`
(`status in ("completed", "failed", "cancelled", "canceled")`). -/
def isTerminal (st : String) : Bool :=
  st == "completed" || st == "failed" || st == "cancelled" ||
    st == "canceled"

/-- The polling loop of `poll_workflow_completion`: `statuses k` is the
status observed by the k-th poll; the fuel is the number of loop
iterations whose start lies before the deadline. Returns the first
terminal status observed; `none` models raising `TimeoutError`. -/
def pollLoop (statuses : ℕ → String) : ℕ → ℕ → Option String
  | _, 0 => none
  | k, fuel + 1 =>
    if isTerminal (statuses k) then some (statuses k)
    else pollLoop statuses (k + 1) fuel

/-- The number of polls that start before the wall-clock deadline
`timeout_minutes × 60` seconds after entry, each loop iteration being
modeled as taking exactly `poll_interval` seconds (the `time.sleep`
between polls): the number of `k` with
`k * poll_interval < timeout_minutes * 60`. -/
def numPolls (timeout_minutes poll_interval : ℕ) : ℕ :=
  (timeout_minutes * 60 + poll_interval - 1) / poll_interval

/-- The waiting phase `poll_workflow_completion` from
`monomer/workflows.py`, over a discrete schedule of observed statuses. -/
def poll_workflow_completion (statuses : ℕ → String)
    (timeout_minutes poll_interval : ℕ) : Option String :=
  pollLoop statuses 0 (numPolls timeout_minutes poll_interval)

/-- The actions `run_agent` in `basic_agent.py` performs after the
waiting phase of one iteration, in program order: when
`poll_workflow_completion` returns (any terminal status) the agent
unconditionally fetches the OD results, appends to its in-memory
history and runs the gradient update; when the poll raises
(`none`, a timeout) the exception propagates and none of these run. -/
inductive IterAction
  | fetchObservations
  | appendHistory
  | gradientUpdate
deriving DecidableEq

/-- Dispatch of `basic_agent.py` steps 4–5 on the waiting phase's
outcome; the code never branches on the returned status. -/
def basicIterationActions : Option String → List IterAction
  | none => []
  | some _ =>
    [IterAction.fetchObservations, IterAction.appendHistory,
      IterAction.gradientUpdate]

/-- A schedule on which every poll observes `failed`. -/
def constFailed : ℕ → WorkStatus := fun _ => WorkStatus.failed

/-- Observable history events of an agent's main loop: `complete` is an
iteration record appended in memory (`history.append(...)`), `persist`
is a write of the full history to durable storage
(`Path("runs/history.json").write_text(...)`). -/
inductive AgentEv
  | complete
  | persist
deriving DecidableEq

/-- How many loop iterations actually run: the loop counter is
`1, …, n_iterations`, but `column_index = iteration + 1 > 12` breaks
out of the loop first (plate capacity). -/
def agentIterCount (n : ℕ) : ℕ :=
  ((List.range' 1 n).takeWhile (fun i => decide (i + 1 ≤ 12))).length

/-- Per-iteration event blocks of `run_agent` in `starter_agent.py`:
each iteration appends to history and immediately writes
`runs/history.json`. -/
def starterBlocks : ℕ → List AgentEv
  | 0 => []
  | k + 1 => AgentEv.complete :: AgentEv.persist :: starterBlocks k

/-- Event trace of a run of `run_agent` in `starter_agent.py` in which
every iteration completes. -/
def starterTrace (n : ℕ) : List AgentEv :=
  starterBlocks (agentIterCount n)

/-- Event trace of a run of `run_agent` in `basic_agent.py` in which
every iteration completes: history is appended each iteration but
written to `runs/history.json` only once, after the loop finishes. -/
def basicTrace (n : ℕ) : List AgentEv :=
  List.replicate (agentIterCount n) AgentEv.complete ++ [AgentEv.persist]

/-- Crash-safety fold state `(completed, persisted)`: iterations
appended so far, and iterations covered by the most recent persist
(`0` when nothing was written yet). -/
def evStep : ℕ × ℕ → AgentEv → ℕ × ℕ
  | (c, s), AgentEv.complete => (c + 1, s)
  | (c, _), AgentEv.persist => (c, c)

/-- Replay of an event trace from a given state; killing the process at
any point leaves on disk the `persisted` component of the state reached
by the prefix executed so far. -/
def runEv (st : ℕ × ℕ) (l : List AgentEv) : ℕ × ℕ :=
  l.foldl evStep st

lemma pyMaxBy_foldl (f : String → ℤ) :
    ∀ (ns : List String) (b : String),
      ns.foldl (fun best x => if f best < f x then x else best) b ∈ b :: ns ∧
      f b ≤ f (ns.foldl (fun best x => if f best < f x then x else best) b) ∧
      ∀ x ∈ ns, f x ≤ f (ns.foldl (fun best x => if f best < f x then x else best) b) := by
  intro ns
  induction ns with
  | nil => intro b; simp
  | cons x ns ih =>
    intro b
    have hfold : (x :: ns).foldl (fun best x => if f best < f x then x else best) b =
        ns.foldl (fun best x => if f best < f x then x else best)
          (if f b < f x then x else b) := rfl
    obtain ⟨hmem, hle, hall⟩ := ih (if f b < f x then x else b)
    rw [hfold]
    refine ⟨?_, ?_, ?_⟩
    · rcases List.mem_cons.mp hmem with h | h
      · rw [h]; split_ifs <;> simp
      · simp [h]
    · refine le_trans ?_ hle
      split_ifs with h
      · exact le_of_lt h
      · exact le_rfl
    · intro y hy
      rcases List.mem_cons.mp hy with h | h
      · subst h
        refine le_trans ?_ hle
        split_ifs with h
        · exact le_rfl
        · exact le_of_not_lt h
      · exact hall y h

lemma pyMaxBy_mem {f : String → ℤ} {names : List String} {m : String}
    (h : pyMaxBy f names = some m) : m ∈ names := by
  cases names with
  | nil => simp [pyMaxBy] at h
  | cons n ns =>
    obtain ⟨hmem, -, -⟩ := pyMaxBy_foldl f ns n
    simp only [pyMaxBy, Option.some.injEq] at h
    rwa [h] at hmem

lemma pyMaxBy_le {f : String → ℤ} {names : List String} {m : String}
    (h : pyMaxBy f names = some m) : ∀ x ∈ names, f x ≤ f m := by
  cases names with
  | nil => simp [pyMaxBy] at h
  | cons n ns =>
    obtain ⟨-, hle, hall⟩ := pyMaxBy_foldl f ns n
    simp only [pyMaxBy, Option.some.injEq] at h
    subst h
    intro x hx
    rcases List.mem_cons.mp hx with h | h
    · rw [h]; exact hle
    · exact hall x h

lemma fixFiller_succ_done {names : List String} {nb wv δ : ℤ} {fuel : ℕ}
    {f : String → ℤ} (h : ¬ compute_novel_bio names f wv < nb) :
    fixFiller names nb wv δ (fuel + 1) f = f := by
  simp [fixFiller, h]

lemma fixFiller_succ_none {names : List String} {nb wv δ : ℤ} {fuel : ℕ}
    {f : String → ℤ} (hmx : pyMaxBy f names = none) :
    fixFiller names nb wv δ (fuel + 1) f = f := by
  simp only [fixFiller, hmx]
  split <;> rfl

lemma fixFiller_succ_break {names : List String} {nb wv δ : ℤ} {fuel : ℕ}
    {f : String → ℤ} {m : String} (hmx : pyMaxBy f names = some m)
    (hm0 : f m ≤ 0) : fixFiller names nb wv δ (fuel + 1) f = f := by
  simp only [fixFiller, hmx]
  split
  · simp [hm0]
  · rfl

lemma fixFiller_succ_go {names : List String} {nb wv δ : ℤ} {fuel : ℕ}
    {f : String → ℤ} {m : String} (hg : compute_novel_bio names f wv < nb)
    (hmx : pyMaxBy f names = some m) (hm0 : ¬ f m ≤ 0) :
    fixFiller names nb wv δ (fuel + 1) f =
      fixFiller names nb wv δ fuel (Function.update f m (max 0 (f m - δ))) := by
  simp [fixFiller, hg, hmx, hm0]

lemma fixFiller_of_stopped {names : List String} {nb wv δ : ℤ}
    {f : String → ℤ} (h : fixStopped names nb wv f) :
    ∀ fuel, fixFiller names nb wv δ fuel f = f := by
  intro fuel
  cases fuel with
  | zero => rfl
  | succ fuel =>
    rcases h with h | h | ⟨m, hmx, hm0⟩
    · exact fixFiller_succ_done (not_lt.mpr h)
    · exact fixFiller_succ_none h
    · exact fixFiller_succ_break hmx hm0

lemma fixFiller_inv {names : List String} {nb wv δ : ℤ} (P : ℤ → Prop)
    (hstep : ∀ v, P v → P (max 0 (v - δ))) :
    ∀ fuel (f : String → ℤ), (∀ n, P (f n)) →
      ∀ n, P (fixFiller names nb wv δ fuel f n) := by
  intro fuel
  induction fuel with
  | zero => intro f hf n; exact hf n
  | succ fuel ih =>
    intro f hf n
    by_cases hg : compute_novel_bio names f wv < nb
    · cases hmx : pyMaxBy f names with
      | none => rw [fixFiller_succ_none hmx]; exact hf n
      | some m =>
        by_cases hm0 : f m ≤ 0
        · rw [fixFiller_succ_break hmx hm0]; exact hf n
        · rw [fixFiller_succ_go hg hmx hm0]
          refine ih _ ?_ n
          intro k
          rw [Function.update_apply]
          split_ifs with hk
          · exact hstep (f m) (hf m)
          · exact hf k
    · rw [fixFiller_succ_done hg]; exact hf n

lemma fixFiller_outside {names : List String} {nb wv δ : ℤ} :
    ∀ fuel (f : String → ℤ) (n : String), n ∉ names →
      fixFiller names nb wv δ fuel f n = f n := by
  intro fuel
  induction fuel with
  | zero => intro f n _; rfl
  | succ fuel ih =>
    intro f n hn
    by_cases hg : compute_novel_bio names f wv < nb
    · cases hmx : pyMaxBy f names with
      | none => rw [fixFiller_succ_none hmx]
      | some m =>
        by_cases hm0 : f m ≤ 0
        · rw [fixFiller_succ_break hmx hm0]
        · rw [fixFiller_succ_go hg hmx hm0, ih _ n hn, Function.update_apply,
            if_neg]
          intro hc
          exact hn (hc ▸ pyMaxBy_mem hmx)
    · rw [fixFiller_succ_done hg]

lemma sum_map_le {α : Type} (g h : α → ℕ) (l : List α)
    (hle : ∀ x ∈ l, g x ≤ h x) : (l.map g).sum ≤ (l.map h).sum := by
  induction l with
  | nil => simp
  | cons x l ih =>
    simp only [List.map_cons, List.sum_cons]
    have h1 := hle x (List.mem_cons_self x l)
    have h2 := ih (fun y hy => hle y (List.mem_cons_of_mem x hy))
    omega

lemma sum_map_lt {α : Type} (g h : α → ℕ) (l : List α)
    (hle : ∀ x ∈ l, g x ≤ h x) (a : α) (ha : a ∈ l) (hlt : g a < h a) :
    (l.map g).sum < (l.map h).sum := by
  induction l with
  | nil => simp at ha
  | cons x l ih =>
    simp only [List.map_cons, List.sum_cons]
    have h1 := hle x (List.mem_cons_self x l)
    have h2 := sum_map_le g h l (fun y hy => hle y (List.mem_cons_of_mem x hy))
    rcases List.mem_cons.mp ha with h | h
    · subst h; omega
    · have := ih (fun y hy => hle y (List.mem_cons_of_mem x hy)) h
      omega

lemma posMeasure_update_lt {names : List String} {f : String → ℤ} {m : String}
    {δ : ℤ} (hδ : 1 ≤ δ) (hm : m ∈ names) (hpos : 0 < f m) :
    posMeasure names (Function.update f m (max 0 (f m - δ))) <
      posMeasure names f := by
  refine sum_map_lt _ _ names ?_ m hm ?_
  · intro n _
    rw [Function.update_apply]
    split_ifs with hn
    · subst hn; simp only [max_def]; split_ifs <;> omega
    · exact le_rfl
  · rw [Function.update_same]
    simp only [max_def]; split_ifs <;> omega

lemma posMeasure_zero_le {names : List String} {f : String → ℤ}
    (h : posMeasure names f = 0) : ∀ n ∈ names, f n ≤ 0 := by
  intro n hn
  have hmem : (f n).toNat ∈ names.map (fun k => (f k).toNat) :=
    List.mem_map_of_mem _ hn
  have := List.sum_eq_zero_iff.mp h _ hmem
  omega

/-- With reduction step `δ ≥ 1`, fuel `posMeasure names f` is enough for the
repair loop: the result satisfies the exit condition and adding any extra
fuel does not change it — i.e. the Python `while` loop terminates. -/
lemma fixFiller_stable {names : List String} {nb wv δ : ℤ} (hδ : 1 ≤ δ) :
    ∀ fuel (f : String → ℤ), posMeasure names f ≤ fuel →
      fixStopped names nb wv (fixFiller names nb wv δ fuel f) ∧
      ∀ extra, fixFiller names nb wv δ (fuel + extra) f =
        fixFiller names nb wv δ fuel f := by
  intro fuel
  induction fuel with
  | zero =>
    intro f hf
    have hstop : fixStopped names nb wv f := by
      cases hmx : pyMaxBy f names with
      | none => exact Or.inr (Or.inl hmx)
      | some m =>
        refine Or.inr (Or.inr ⟨m, hmx, ?_⟩)
        exact posMeasure_zero_le (Nat.le_zero.mp hf) m (pyMaxBy_mem hmx)
    refine ⟨hstop, ?_⟩
    intro extra
    rw [Nat.zero_add]
    exact fixFiller_of_stopped hstop extra
  | succ fuel ih =>
    intro f hf
    by_cases hg : compute_novel_bio names f wv < nb
    · cases hmx : pyMaxBy f names with
      | none =>
        have hstop : fixStopped names nb wv f := Or.inr (Or.inl hmx)
        rw [fixFiller_succ_none hmx]
        exact ⟨hstop, fun extra => fixFiller_of_stopped hstop _⟩
      | some m =>
        by_cases hm0 : f m ≤ 0
        · have hstop : fixStopped names nb wv f := Or.inr (Or.inr ⟨m, hmx, hm0⟩)
          rw [fixFiller_succ_break hmx hm0]
          exact ⟨hstop, fun extra => fixFiller_of_stopped hstop _⟩
        · have hdec := @posMeasure_update_lt names f m δ hδ (pyMaxBy_mem hmx)
            (by omega : 0 < f m)
          have hfuel : posMeasure names
              (Function.update f m (max 0 (f m - δ))) ≤ fuel := by omega
          obtain ⟨hstop, hextra⟩ := ih _ hfuel
          rw [fixFiller_succ_go hg hmx hm0]
          refine ⟨hstop, ?_⟩
          intro extra
          have : fuel + 1 + extra = (fuel + extra) + 1 := by omega
          rw [this, fixFiller_succ_go hg hmx hm0, hextra extra]
    · have hstop : fixStopped names nb wv f := Or.inl (not_lt.mp hg)
      rw [fixFiller_succ_done hg]
      exact ⟨hstop, fun extra => fixFiller_of_stopped hstop _⟩

lemma clampOne_mem (q : ℚ) :
    clampOne MIN_SUPPLEMENT_UL MAX_SUPPLEMENT_UL q = 0 ∨
      (MIN_SUPPLEMENT_UL ≤ clampOne MIN_SUPPLEMENT_UL MAX_SUPPLEMENT_UL q ∧
        clampOne MIN_SUPPLEMENT_UL MAX_SUPPLEMENT_UL q ≤ MAX_SUPPLEMENT_UL) := by
  simp only [clampOne, min_def, MIN_SUPPLEMENT_UL, MAX_SUPPLEMENT_UL]
  split_ifs <;> omega

/-- Every value of the default-parameter Solver output is `0` or lies in
`[MIN_SUPPLEMENT_UL, MAX_SUPPLEMENT_UL]`. -/
lemma solve_mem (s : String → ℚ) (n : String) :
    solve s n = 0 ∨
      (MIN_SUPPLEMENT_UL ≤ solve s n ∧ solve s n ≤ MAX_SUPPLEMENT_UL) := by
  refine fixFiller_inv
    (fun v => v = 0 ∨ (MIN_SUPPLEMENT_UL ≤ v ∧ v ≤ MAX_SUPPLEMENT_UL)) ?_ _ _ ?_ n
  · intro v hv
    simp only [MIN_SUPPLEMENT_UL, MAX_SUPPLEMENT_UL, DELTA_UL, max_def] at hv ⊢
    split_ifs <;> omega
  · intro k
    simp only [clampAll]
    split_ifs with hk
    · exact clampOne_mem (s k)
    · exact Or.inl rfl

lemma solve_outside (s : String → ℚ) (n : String)
    (hn : n ∉ SUPPLEMENT_NAMES) : solve s n = 0 := by
  have h := @fixFiller_outside SUPPLEMENT_NAMES
    MIN_NOVEL_BIO_UL WELL_VOLUME_UL DELTA_UL
    (posMeasure SUPPLEMENT_NAMES
      (clampAll SUPPLEMENT_NAMES MIN_SUPPLEMENT_UL MAX_SUPPLEMENT_UL s))
    (clampAll SUPPLEMENT_NAMES MIN_SUPPLEMENT_UL MAX_SUPPLEMENT_UL s) n hn
  rw [show solve s n = clampAll SUPPLEMENT_NAMES MIN_SUPPLEMENT_UL
    MAX_SUPPLEMENT_UL s n from h]
  simp [clampAll, hn]

lemma solve_stopped (s : String → ℚ) :
    fixStopped SUPPLEMENT_NAMES MIN_NOVEL_BIO_UL WELL_VOLUME_UL (solve s) :=
  (fixFiller_stable (by norm_num [DELTA_UL]) _ _ le_rfl).1

lemma solve_filler (s : String → ℚ) :
    MIN_NOVEL_BIO_UL ≤
      compute_novel_bio SUPPLEMENT_NAMES (solve s) WELL_VOLUME_UL ∨
      (solve s "Glucose" = 0 ∧ solve s "NaCl" = 0 ∧ solve s "MgSO4" = 0) := by
  rcases solve_stopped s with h | h | ⟨m, hmx, hm0⟩
  · exact Or.inl h
  · simp [pyMaxBy, SUPPLEMENT_NAMES] at h
  · refine Or.inr ?_
    have hall := pyMaxBy_le hmx
    have hz : ∀ n ∈ SUPPLEMENT_NAMES, solve s n = 0 := by
      intro n hn
      rcases solve_mem s n with h0 | ⟨h1, -⟩
      · exact h0
      · have := hall n hn
        simp only [MIN_SUPPLEMENT_UL] at h1
        omega
    exact ⟨hz _ (by simp [SUPPLEMENT_NAMES]), hz _ (by simp [SUPPLEMENT_NAMES]),
      hz _ (by simp [SUPPLEMENT_NAMES])⟩

/-- C1: for every proposed mapping from supplement names to (possibly
fractional, possibly negative) volumes, the composition returned by the
Solver `apply_constraints` at its default parameters satisfies the three
postconditions: each factor is `0` or lies in
`[MIN_SUPPLEMENT_UL, MAX_SUPPLEMENT_UL]`; the factor sum plus the derived
filler `compute_novel_bio` equals `WELL_VOLUME_UL`; and the filler is at
least `MIN_NOVEL_BIO_UL` unless every factor is `0`. -/
theorem C1_solver_postconditions (s : String → ℚ) :
    ((solve s "Glucose" = 0 ∨ (MIN_SUPPLEMENT_UL ≤ solve s "Glucose" ∧
        solve s "Glucose" ≤ MAX_SUPPLEMENT_UL)) ∧
      (solve s "NaCl" = 0 ∨ (MIN_SUPPLEMENT_UL ≤ solve s "NaCl" ∧
        solve s "NaCl" ≤ MAX_SUPPLEMENT_UL)) ∧
      (solve s "MgSO4" = 0 ∨ (MIN_SUPPLEMENT_UL ≤ solve s "MgSO4" ∧
        solve s "MgSO4" ≤ MAX_SUPPLEMENT_UL))) ∧
    compSum SUPPLEMENT_NAMES (solve s) +
      compute_novel_bio SUPPLEMENT_NAMES (solve s) WELL_VOLUME_UL =
      WELL_VOLUME_UL ∧
    (MIN_NOVEL_BIO_UL ≤
        compute_novel_bio SUPPLEMENT_NAMES (solve s) WELL_VOLUME_UL ∨
      (solve s "Glucose" = 0 ∧ solve s "NaCl" = 0 ∧ solve s "MgSO4" = 0)) := by
  refine ⟨⟨solve_mem s _, solve_mem s _, solve_mem s _⟩, ?_, solve_filler s⟩
  simp only [compute_novel_bio]
  ring

lemma pyRound_intCast (v : ℤ) : pyRound (v : ℚ) = v := by
  norm_num [pyRound, Int.fract_intCast, Int.floor_intCast]

lemma clampOne_fix (v : ℤ)
    (h : v = 0 ∨ (MIN_SUPPLEMENT_UL ≤ v ∧ v ≤ MAX_SUPPLEMENT_UL)) :
    clampOne MIN_SUPPLEMENT_UL MAX_SUPPLEMENT_UL (v : ℚ) = v := by
  simp only [clampOne, pyRound_intCast, min_def, MIN_SUPPLEMENT_UL,
    MAX_SUPPLEMENT_UL] at h ⊢
  split_ifs <;> omega

lemma solve_fix (s : String → ℚ) :
    solve (fun n => ((solve s n : ℤ) : ℚ)) = solve s := by
  have hclamp : clampAll SUPPLEMENT_NAMES MIN_SUPPLEMENT_UL MAX_SUPPLEMENT_UL
      (fun n => ((solve s n : ℤ) : ℚ)) = solve s := by
    funext n
    by_cases hn : n ∈ SUPPLEMENT_NAMES
    · simp only [clampAll, if_pos hn]
      exact clampOne_fix _ (solve_mem s n)
    · simp only [clampAll, if_neg hn]
      exact (solve_outside s n hn).symm
  show fixFiller _ _ _ _ _ _ = solve s
  rw [hclamp]
  exact fixFiller_of_stopped (solve_stopped s) _

/-- C6: the Solver at its default parameters is idempotent — feeding the
returned composition back through `apply_constraints` returns it
unchanged, for every input mapping. -/
theorem C6_solver_idempotent (s : String → ℚ) :
    solve (fun n => ((solve s n : ℤ) : ℚ)) = solve s :=
  solve_fix s

/-- C10: for every input mapping and every reduction step `delta ≥ 1`, the
filler-repair loop of `apply_constraints` terminates: running it with any
fuel beyond `posMeasure` of the clamped state changes nothing, and the
reached state satisfies the loop's exit condition (filler at floor, or the
largest factor exhausted). With `delta = 0` and insufficient filler the
loop body would leave the state unchanged and never exit. -/
theorem C10_repair_loop_terminates (s : String → ℚ) (names : List String)
    (min_ul max_ul min_novel_bio well_volume delta : ℤ)
    (hdelta : 1 ≤ delta) (extra : ℕ) :
    fixFiller names min_novel_bio well_volume delta
        (posMeasure names (clampAll names min_ul max_ul s) + extra)
        (clampAll names min_ul max_ul s) =
      apply_constraints s names min_ul max_ul min_novel_bio well_volume
        delta ∧
    fixStopped names min_novel_bio well_volume
      (apply_constraints s names min_ul max_ul min_novel_bio well_volume
        delta) := by
  obtain ⟨h1, h2⟩ := fixFiller_stable hdelta
    (posMeasure names (clampAll names min_ul max_ul s))
    (clampAll names min_ul max_ul s) le_rfl
  exact ⟨h2 extra, h1⟩

theorem C10_repair_loop_terminates_witness :
    (1 : ℤ) ≤ 10 ∧
    (fixFiller SUPPLEMENT_NAMES 90 180 10
        (posMeasure SUPPLEMENT_NAMES (clampAll SUPPLEMENT_NAMES 1 90
          zeroInput) + 3)
        (clampAll SUPPLEMENT_NAMES 1 90 zeroInput) =
      apply_constraints zeroInput SUPPLEMENT_NAMES 1 90 90 180 10 ∧
    fixStopped SUPPLEMENT_NAMES 90 180
      (apply_constraints zeroInput SUPPLEMENT_NAMES 1 90 90 180 10)) :=
  ⟨by norm_num,
    C10_repair_loop_terminates zeroInput SUPPLEMENT_NAMES 1 90 90 180 10
      (by norm_num) 3⟩

/-- C2 counterexample: with center response `3/4` and Glucose replicate
responses `(1/2, 1/2)` the gradient is `-1/4`, so
`learningRate × gradient = -5/4`; the code's `int()` gives `-1` (new raw
value `19`) while the claimed `floor` gives `-2` (raw value `18`) — the
rounding is truncation toward zero, not floor. -/
theorem C2_counterexample :
    agentRawCenter startCenter (3/4) cexPert "Glucose" ≠
      startCenter "Glucose" +
        ⌊(LEARNING_RATE : ℚ) *
          gradientOf (3/4) (cexPert "Glucose").1 (cexPert "Glucose").2⌋ := by
  norm_num [agentRawCenter, agentAdjustment, pyInt, gradientOf, startCenter,
    cexPert, SUPPLEMENT_NAMES, LEARNING_RATE]

lemma pyInt_eq_floor_or_ceil (q : ℚ) :
    pyInt q = if 0 ≤ q then ⌊q⌋ else ⌈q⌉ := by
  unfold pyInt
  split_ifs with h
  · rfl
  · rw [Int.floor_neg, neg_neg]

/-- C2 amended: for each factor the adjustment added to the old center
value is `learningRate × gradient` truncated **toward zero** — which
coincides with floor for non-negative gradients but is the ceiling for
negative ones — and the resulting raw mapping is passed through the
Solver (`apply_constraints` at default parameters) to give the next
center. -/
theorem C2_gradient_update_amended (center : String → ℤ) (center_od : ℚ)
    (pert : String → ℚ × ℚ) :
    (agentRawCenter center center_od pert "Glucose" = center "Glucose" +
      (if 0 ≤ (LEARNING_RATE : ℚ) *
          gradientOf center_od (pert "Glucose").1 (pert "Glucose").2 then
        ⌊(LEARNING_RATE : ℚ) *
          gradientOf center_od (pert "Glucose").1 (pert "Glucose").2⌋
      else
        ⌈(LEARNING_RATE : ℚ) *
          gradientOf center_od (pert "Glucose").1 (pert "Glucose").2⌉)) ∧
    (agentRawCenter center center_od pert "NaCl" = center "NaCl" +
      (if 0 ≤ (LEARNING_RATE : ℚ) *
          gradientOf center_od (pert "NaCl").1 (pert "NaCl").2 then
        ⌊(LEARNING_RATE : ℚ) *
          gradientOf center_od (pert "NaCl").1 (pert "NaCl").2⌋
      else
        ⌈(LEARNING_RATE : ℚ) *
          gradientOf center_od (pert "NaCl").1 (pert "NaCl").2⌉)) ∧
    (agentRawCenter center center_od pert "MgSO4" = center "MgSO4" +
      (if 0 ≤ (LEARNING_RATE : ℚ) *
          gradientOf center_od (pert "MgSO4").1 (pert "MgSO4").2 then
        ⌊(LEARNING_RATE : ℚ) *
          gradientOf center_od (pert "MgSO4").1 (pert "MgSO4").2⌋
      else
        ⌈(LEARNING_RATE : ℚ) *
          gradientOf center_od (pert "MgSO4").1 (pert "MgSO4").2⌉)) ∧
    agentNextCenter center center_od pert =
      solve (fun n => ((agentRawCenter center center_od pert n : ℤ) : ℚ)) := by
  refine ⟨?_, ?_, ?_, rfl⟩ <;>
    simp [agentRawCenter, agentAdjustment, pyInt_eq_floor_or_ceil,
      SUPPLEMENT_NAMES]

lemma solve_intInput (f : String → ℤ) : solve (intInput f) = solveInt f := by
  have h : clampAll SUPPLEMENT_NAMES MIN_SUPPLEMENT_UL MAX_SUPPLEMENT_UL
      (intInput f) = clampAllInt f := by
    funext n
    simp only [clampAll, clampAllInt, clampOne, intInput, pyRound_intCast]
  show fixFiller _ _ _ _ _ _ = _
  rw [h]
  rfl

lemma make_perturbed_eq (center : String → ℤ) (name : String) (delta : ℤ) :
    make_perturbed center name delta =
      solveInt (fun n => if n = name then center name + delta else center n) :=
  solve_intInput _

lemma generate_transfer_array_int (center : String → ℤ) (column_index : ℕ)
    (delta : ℤ) :
    generate_transfer_array center column_index delta =
      sortBySrc
        (⟨REAGENT_WELLS "Novel_Bio", "A" ++ toString column_index,
            WELL_VOLUME_UL⟩ ::
          (rowTransfers center "B" (toString column_index) ++
            (rowTransfers (solveInt (fun n =>
                if n = "Glucose" then center "Glucose" + delta else center n))
                "C" (toString column_index) ++
              rowTransfers (solveInt (fun n =>
                if n = "Glucose" then center "Glucose" + delta else center n))
                "D" (toString column_index) ++
              rowTransfers (solveInt (fun n =>
                if n = "NaCl" then center "NaCl" + delta else center n))
                "E" (toString column_index) ++
              rowTransfers (solveInt (fun n =>
                if n = "NaCl" then center "NaCl" + delta else center n))
                "F" (toString column_index) ++
              rowTransfers (solveInt (fun n =>
                if n = "MgSO4" then center "MgSO4" + delta else center n))
                "G" (toString column_index) ++
              rowTransfers (solveInt (fun n =>
                if n = "MgSO4" then center "MgSO4" + delta else center n))
                "H" (toString column_index)))) := by
  unfold generate_transfer_array
  rw [make_perturbed_eq, make_perturbed_eq, make_perturbed_eq]

lemma mem_insertBySrc {t x : Transfer} :
    ∀ {l : List Transfer}, x ∈ insertBySrc t l ↔ x = t ∨ x ∈ l := by
  intro l
  induction l with
  | nil => simp [insertBySrc]
  | cons u us ih =>
    simp only [insertBySrc]
    split_ifs
    · simp
    · simp only [List.mem_cons, ih]
      tauto

lemma mem_sortBySrc {x : Transfer} :
    ∀ {l : List Transfer}, x ∈ sortBySrc l ↔ x ∈ l := by
  intro l
  induction l with
  | nil => simp [sortBySrc]
  | cons t ts ih =>
    simp only [sortBySrc, mem_insertBySrc, ih, List.mem_cons]

lemma pairwise_insertBySrc (t : Transfer) :
    ∀ {l : List Transfer},
      l.Pairwise (fun a b => sourceOrderIndex a.src ≤ sourceOrderIndex b.src) →
      (insertBySrc t l).Pairwise
        (fun a b => sourceOrderIndex a.src ≤ sourceOrderIndex b.src) := by
  intro l
  induction l with
  | nil => intro _; simp [insertBySrc]
  | cons u us ih =>
    intro h
    rw [List.pairwise_cons] at h
    obtain ⟨hu, hus⟩ := h
    simp only [insertBySrc]
    split_ifs with hle
    · rw [List.pairwise_cons]
      refine ⟨?_, List.pairwise_cons.mpr ⟨hu, hus⟩⟩
      intro y hy
      rcases List.mem_cons.mp hy with rfl | hy
      · exact hle
      · exact le_trans hle (hu y hy)
    · rw [List.pairwise_cons]
      refine ⟨?_, ih hus⟩
      intro y hy
      rcases mem_insertBySrc.mp hy with rfl | hy
      · exact le_of_not_le hle
      · exact hu y hy

lemma sortBySrc_pairwise :
    ∀ (l : List Transfer),
      (sortBySrc l).Pairwise
        (fun a b => sourceOrderIndex a.src ≤ sourceOrderIndex b.src) := by
  intro l
  induction l with
  | nil => simp [sortBySrc]
  | cons t ts ih => exact pairwise_insertBySrc t ih

/-- C3 amended: the transfers returned by `generate_transfer_array` are
grouped by source well in a **fixed** priority order — the filler source
`D1` (`Novel_Bio`) first, then `C1` (`MgSO4`), `B1` (`NaCl`), `A1`
(`Glucose`) — irrespective of the total volume each source transfers. -/
theorem C3_transfer_order_amended (center : String → ℤ) (column_index : ℕ)
    (delta : ℤ) :
    (generate_transfer_array center column_index delta).Pairwise
      (fun a b => sourceOrderIndex a.src ≤ sourceOrderIndex b.src) := by
  unfold generate_transfer_array
  exact sortBySrc_pairwise _

/-- C3 counterexample: with center `{Glucose: 90}`, column 2, delta 10,
the generated list places the `C1` (`MgSO4`) group (total volume 20 µL,
positions 8–9) before the `A1` (`Glucose`) group (total volume 590 µL,
from position 12) — the source groups are **not** ordered from highest
total transferred volume to lowest, refuting the claim as stated. -/
theorem C3_counterexample :
    ((generate_transfer_array cexCenter 2 10)[8]?).map Transfer.src =
      some "C1" ∧
    ((generate_transfer_array cexCenter 2 10)[12]?).map Transfer.src =
      some "A1" ∧
    sumVolFrom (generate_transfer_array cexCenter 2 10) "C1" <
      sumVolFrom (generate_transfer_array cexCenter 2 10) "A1" := by
  rw [generate_transfer_array_int]
  decide

lemma rowTransfers_pos (comp : String → ℤ) (row col : String) :
    ∀ t ∈ rowTransfers comp row col, 0 < t.vol := by
  intro t ht
  rcases List.mem_append.mp ht with h | h
  · by_cases hnb :
      0 < compute_novel_bio SUPPLEMENT_NAMES comp WELL_VOLUME_UL
    · rw [if_pos hnb, List.mem_singleton] at h
      rw [h]
      exact hnb
    · rw [if_neg hnb] at h
      simp at h
  · obtain ⟨n, -, hn⟩ := List.mem_filterMap.mp h
    by_cases hp : 0 < comp n
    · rw [if_pos hp, Option.some.injEq] at hn
      rw [← hn]
      exact hp
    · rw [if_neg hp] at hn
      simp at hn

/-- C9: every transfer instruction generated by `generate_transfer_array`
has a strictly positive volume — for every center mapping, column index
and delta, including the control row, the center row and all perturbed
replicate rows. -/
theorem C9_volumes_positive (center : String → ℤ) (column_index : ℕ)
    (delta : ℤ) (t : Transfer)
    (ht : t ∈ generate_transfer_array center column_index delta) :
    0 < t.vol := by
  unfold generate_transfer_array at ht
  rw [mem_sortBySrc] at ht
  rcases List.mem_cons.mp ht with rfl | ht
  · norm_num [WELL_VOLUME_UL]
  · rcases List.mem_append.mp ht with h | h
    · exact rowTransfers_pos _ _ _ t h
    · rcases List.mem_append.mp h with h | h
      · rcases List.mem_append.mp h with h | h
        · rcases List.mem_append.mp h with h | h
          · rcases List.mem_append.mp h with h | h
            · rcases List.mem_append.mp h with h | h
              · exact rowTransfers_pos _ _ _ t h
              · exact rowTransfers_pos _ _ _ t h
            · exact rowTransfers_pos _ _ _ t h
          · exact rowTransfers_pos _ _ _ t h
        · exact rowTransfers_pos _ _ _ t h
      · exact rowTransfers_pos _ _ _ t h

theorem C9_volumes_positive_witness :
    0 < (Transfer.mk "D1" "A2" 180).vol :=
  C9_volumes_positive cexCenter 2 10 (Transfer.mk "D1" "A2" 180)
    (by rw [generate_transfer_array_int]; decide)

lemma addOnce_nodup {l : List String} (h : l.Nodup) (x : String) :
    (addOnce l x).Nodup := by
  unfold addOnce
  split_ifs with hx
  · exact h
  · simpa [List.nodup_append, hx] using h

lemma addOnce_toFinset (l : List String) (x : String) :
    (addOnce l x).toFinset = insert x l.toFinset := by
  unfold addOnce
  split_ifs with hx
  · rw [Finset.insert_eq_self.mpr (List.mem_toFinset.mpr hx)]
  · have hsing : ([x] : List String).toFinset = {x} := by simp
    rw [List.toFinset_append, hsing, Finset.union_comm, ← Finset.insert_eq]

lemma tipConsAux_spec (reuse : List String) (c : String) :
    ∀ (ts : List Transfer) (sets : String → List String)
      (singles : String → ℕ), (sets c).Nodup →
      tipConsAux reuse ts sets singles c =
        ((sets c).toFinset ∪
          (reusableSrcsOfClass ts reuse c).toFinset).card +
        singles c + freshTransfersOfClass ts reuse c := by
  intro ts
  induction ts with
  | nil =>
    intro sets singles hnd
    simp [tipConsAux, reusableSrcsOfClass, freshTransfersOfClass,
      List.toFinset_card_of_nodup hnd]
  | cons t ts ih =>
    intro sets singles hnd
    by_cases hr : t.src ∈ reuse
    · have hcons :
          tipConsAux reuse (t :: ts) sets singles c =
            tipConsAux reuse ts
              (Function.update sets (tipClass t.vol)
                (addOnce (sets (tipClass t.vol)) t.src)) singles c := by
        simp [tipConsAux, hr]
      rw [hcons]
      by_cases hc : tipClass t.vol = c
      · subst hc
        have hnd2 : (Function.update sets (tipClass t.vol)
            (addOnce (sets (tipClass t.vol)) t.src) (tipClass t.vol)).Nodup := by
          rw [Function.update_same]
          exact addOnce_nodup hnd t.src
        rw [ih _ _ hnd2]
        rw [Function.update_same, addOnce_toFinset]
        have hfilter : reusableSrcsOfClass (t :: ts) reuse (tipClass t.vol) =
            t.src :: reusableSrcsOfClass ts reuse (tipClass t.vol) := by
          simp [reusableSrcsOfClass, List.filter_cons, hr]
        have hfresh : freshTransfersOfClass (t :: ts) reuse (tipClass t.vol) =
            freshTransfersOfClass ts reuse (tipClass t.vol) := by
          simp [freshTransfersOfClass, List.filter_cons, hr]
        rw [hfilter, hfresh, List.toFinset_cons, Finset.insert_union,
          Finset.union_insert]
      · have hnd2 : (Function.update sets (tipClass t.vol)
            (addOnce (sets (tipClass t.vol)) t.src) c).Nodup := by
          rw [Function.update_noteq (Ne.symm hc)]
          exact hnd
        rw [ih _ _ hnd2]
        rw [Function.update_noteq (Ne.symm hc)]
        have hfilter : reusableSrcsOfClass (t :: ts) reuse c =
            reusableSrcsOfClass ts reuse c := by
          simp [reusableSrcsOfClass, List.filter_cons, hc]
        have hfresh : freshTransfersOfClass (t :: ts) reuse c =
            freshTransfersOfClass ts reuse c := by
          simp [freshTransfersOfClass, List.filter_cons, hc]
        rw [hfilter, hfresh]
    · have hcons :
          tipConsAux reuse (t :: ts) sets singles c =
            tipConsAux reuse ts sets
              (Function.update singles (tipClass t.vol)
                (singles (tipClass t.vol) + 1)) c := by
        simp [tipConsAux, hr]
      rw [hcons, ih _ _ hnd]
      by_cases hc : tipClass t.vol = c
      · subst hc
        rw [Function.update_same]
        have hfilter : reusableSrcsOfClass (t :: ts) reuse (tipClass t.vol) =
            reusableSrcsOfClass ts reuse (tipClass t.vol) := by
          simp [reusableSrcsOfClass, List.filter_cons, hr]
        have hfresh : freshTransfersOfClass (t :: ts) reuse (tipClass t.vol) =
            freshTransfersOfClass ts reuse (tipClass t.vol) + 1 := by
          simp [freshTransfersOfClass, List.filter_cons, hr]
        rw [hfilter, hfresh]
        omega
      · rw [Function.update_noteq (Ne.symm hc)]
        have hfilter : reusableSrcsOfClass (t :: ts) reuse c =
            reusableSrcsOfClass ts reuse c := by
          simp [reusableSrcsOfClass, List.filter_cons, hc]
        have hfresh : freshTransfersOfClass (t :: ts) reuse c =
            freshTransfersOfClass ts reuse c := by
          simp [freshTransfersOfClass, List.filter_cons, hc]
        rw [hfilter, hfresh]

/-- C8: within each tip class, `compute_tip_consumption` charges exactly
one tip per distinct (source well, tip class) pair for transfers whose
source is in the reusable-source list — however many transfers that
source feeds — plus one fresh tip per individual transfer from any other
source; the per-class count is the sum of the two contributions. -/
theorem C8_tip_consumption (ts : List Transfer) (reuse : List String)
    (c : String) :
    compute_tip_consumption ts reuse c =
      (reusableSrcsOfClass ts reuse c).toFinset.card +
        freshTransfersOfClass ts reuse c := by
  unfold compute_tip_consumption
  rw [tipConsAux_spec reuse c ts _ _ List.nodup_nil]
  simp

lemma numPolls_lt (t i k : ℕ) (hi : 0 < i) :
    k < numPolls t i ↔ k * i < t * 60 := by
  have h1 : k < numPolls t i ↔ (k + 1) * i ≤ t * 60 + i - 1 := by
    unfold numPolls
    rw [Nat.lt_iff_add_one_le, Nat.le_div_iff_mul_le hi]
  rw [h1, Nat.succ_mul]
  omega

lemma pollLoop_succ_terminal {statuses : ℕ → String} {k fuel : ℕ}
    (h : isTerminal (statuses k) = true) :
    pollLoop statuses k (fuel + 1) = some (statuses k) := by
  simp [pollLoop, h]

lemma pollLoop_succ_not {statuses : ℕ → String} {k fuel : ℕ}
    (h : isTerminal (statuses k) = false) :
    pollLoop statuses k (fuel + 1) = pollLoop statuses (k + 1) fuel := by
  simp [pollLoop, h]

lemma pollLoop_none_iff (statuses : ℕ → String) :
    ∀ (fuel k : ℕ), pollLoop statuses k fuel = none ↔
      ∀ j < fuel, isTerminal (statuses (k + j)) = false := by
  intro fuel
  induction fuel with
  | zero => intro k; simp [pollLoop]
  | succ fuel ih =>
    intro k
    cases hterm : isTerminal (statuses k) with
    | true =>
      rw [pollLoop_succ_terminal hterm]
      constructor
      · intro h; exact absurd h (by simp)
      · intro h
        have h0 := h 0 (Nat.succ_pos fuel)
        rw [Nat.add_zero] at h0
        rw [h0] at hterm
        exact absurd hterm (by simp)
    | false =>
      rw [pollLoop_succ_not hterm, ih (k + 1)]
      constructor
      · intro h j hj
        cases j with
        | zero => rw [Nat.add_zero]; exact hterm
        | succ j =>
          have := h j (by omega)
          rwa [show k + 1 + j = k + (j + 1) by omega] at this
      · intro h j hj
        have := h (j + 1) (by omega)
        rwa [show k + (j + 1) = k + 1 + j by omega] at this

lemma pollLoop_first (statuses : ℕ → String) :
    ∀ (fuel k j : ℕ), j < fuel → isTerminal (statuses (k + j)) = true →
      (∀ i < j, isTerminal (statuses (k + i)) = false) →
      pollLoop statuses k fuel = some (statuses (k + j)) := by
  intro fuel
  induction fuel with
  | zero => intro k j hj; omega
  | succ fuel ih =>
    intro k j hj hterm hprev
    cases j with
    | zero =>
      rw [Nat.add_zero] at hterm
      simp [pollLoop, hterm]
    | succ j =>
      have h0 : isTerminal (statuses k) = false := by
        have := hprev 0 (Nat.succ_pos j)
        rwa [Nat.add_zero] at this
      rw [pollLoop_succ_not h0]
      have hterm' : isTerminal (statuses (k + 1 + j)) = true := by
        rwa [show k + 1 + j = k + (j + 1) by omega]
      have hprev' : ∀ i < j, isTerminal (statuses (k + 1 + i)) = false := by
        intro i hi
        have := hprev (i + 1) (by omega)
        rwa [show k + (i + 1) = k + 1 + i by omega] at this
      have := ih (k + 1) j (by omega) hterm' hprev'
      rwa [show k + 1 + j = k + (j + 1) by omega] at this

lemma isTerminal_statusStr (st : WorkStatus) :
    isTerminal (statusStr st) = true ↔ terminalStatus st := by
  cases st <;> simp [isTerminal, statusStr, terminalStatus]

/-- C5 counterexample: when every poll reports `failed`, the waiting
phase returns normally with `some "failed"` (no abort), and the basic
agent still fetches observations and performs the gradient update —
contradicting the claim that a failed run is recorded and the run
aborts with no observation fetch or gradient update. -/
theorem C5_counterexample :
    poll_workflow_completion (fun _ => "failed") WORKFLOW_TIMEOUT_MINUTES
        DAEMON_POLL_INTERVAL = some "failed" ∧
    IterAction.fetchObservations ∈
      basicIterationActions (poll_workflow_completion (fun _ => "failed")
        WORKFLOW_TIMEOUT_MINUTES DAEMON_POLL_INTERVAL) ∧
    IterAction.gradientUpdate ∈
      basicIterationActions (poll_workflow_completion (fun _ => "failed")
        WORKFLOW_TIMEOUT_MINUTES DAEMON_POLL_INTERVAL) := by
  decide

/-- C5 amended: a `failed`/`cancelled` terminal status observed before
the deadline makes `poll_workflow_completion` return that status like
any completion — no exception, no retry — and the basic agent then
performs exactly the same actions as for `completed`: it fetches
observations, appends the iteration to history, and runs the gradient
update; the failure is neither specially recorded nor does it abort the
run. -/
theorem C5_failed_run_amended (σ : ℕ → WorkStatus) (k : ℕ)
    (hk : k * DAEMON_POLL_INTERVAL < WORKFLOW_TIMEOUT_MINUTES * 60)
    (hst : σ k = WorkStatus.failed ∨ σ k = WorkStatus.cancelled)
    (hprev : ∀ j < k, ¬ terminalStatus (σ j)) :
    poll_workflow_completion (fun n => statusStr (σ n))
        WORKFLOW_TIMEOUT_MINUTES DAEMON_POLL_INTERVAL =
      some (statusStr (σ k)) ∧
    basicIterationActions (poll_workflow_completion
        (fun n => statusStr (σ n)) WORKFLOW_TIMEOUT_MINUTES
        DAEMON_POLL_INTERVAL) =
      [IterAction.fetchObservations, IterAction.appendHistory,
        IterAction.gradientUpdate] := by
  have hfuel : k < numPolls WORKFLOW_TIMEOUT_MINUTES DAEMON_POLL_INTERVAL :=
    (numPolls_lt _ _ k (by norm_num [DAEMON_POLL_INTERVAL])).mpr hk
  have hterm : isTerminal (statusStr (σ k)) = true := by
    rw [isTerminal_statusStr]
    rcases hst with h | h <;> rw [h]
    · exact Or.inr (Or.inl rfl)
    · exact Or.inr (Or.inr rfl)
  have hprev' : ∀ i < k, isTerminal (statusStr (σ i)) = false := by
    intro i hi
    rw [← Bool.not_eq_true, isTerminal_statusStr]
    exact hprev i hi
  have hmain : poll_workflow_completion (fun n => statusStr (σ n))
      WORKFLOW_TIMEOUT_MINUTES DAEMON_POLL_INTERVAL =
      some (statusStr (σ k)) := by
    unfold poll_workflow_completion
    have := pollLoop_first (fun n => statusStr (σ n))
      (numPolls WORKFLOW_TIMEOUT_MINUTES DAEMON_POLL_INTERVAL) 0 k hfuel
      (by simpa using hterm) (by simpa using hprev')
    simpa using this
  rw [hmain]
  exact ⟨rfl, rfl⟩

theorem C5_failed_run_amended_witness :
    poll_workflow_completion (fun n => statusStr (constFailed n))
        WORKFLOW_TIMEOUT_MINUTES DAEMON_POLL_INTERVAL =
      some (statusStr (constFailed 0)) ∧
    basicIterationActions (poll_workflow_completion
        (fun n => statusStr (constFailed n)) WORKFLOW_TIMEOUT_MINUTES
        DAEMON_POLL_INTERVAL) =
      [IterAction.fetchObservations, IterAction.appendHistory,
        IterAction.gradientUpdate] :=
  C5_failed_run_amended constFailed 0 (by decide) (Or.inl rfl)
    (by intro j hj; omega)

/-- C7: the waiting phase stops at the first terminal status or the
deadline, whichever comes first. Over any schedule of statuses from the
execution boundary's domain: `poll_workflow_completion` yields `none`
(modeling the raised `TimeoutError`) exactly when no poll before the
deadline observes a terminal status; if poll `k` is the first to observe
a terminal status and starts before the deadline, the phase returns that
status's instance data; and on a timeout the agent performs no
observation fetch and appends nothing, leaving its history with only the
prior, completed iterations. -/
theorem C7_poll_semantics (σ : ℕ → WorkStatus) :
    (poll_workflow_completion (fun n => statusStr (σ n))
        WORKFLOW_TIMEOUT_MINUTES DAEMON_POLL_INTERVAL = none ↔
      ∀ k, k * DAEMON_POLL_INTERVAL < WORKFLOW_TIMEOUT_MINUTES * 60 →
        ¬ terminalStatus (σ k)) ∧
    (∀ k, k * DAEMON_POLL_INTERVAL < WORKFLOW_TIMEOUT_MINUTES * 60 →
      terminalStatus (σ k) → (∀ j < k, ¬ terminalStatus (σ j)) →
      poll_workflow_completion (fun n => statusStr (σ n))
          WORKFLOW_TIMEOUT_MINUTES DAEMON_POLL_INTERVAL =
        some (statusStr (σ k))) ∧
    basicIterationActions none = [] := by
  refine ⟨?_, ?_, rfl⟩
  · unfold poll_workflow_completion
    rw [pollLoop_none_iff]
    constructor
    · intro h k hk
      have h2 := h k ((numPolls_lt _ _ k
        (by norm_num [DAEMON_POLL_INTERVAL])).mpr hk)
      rw [Nat.zero_add] at h2
      rw [← isTerminal_statusStr]
      simp [h2]
    · intro h j hj
      rw [Nat.zero_add]
      rw [← Bool.not_eq_true, isTerminal_statusStr]
      exact h j ((numPolls_lt _ _ j
        (by norm_num [DAEMON_POLL_INTERVAL])).mp hj)
  · intro k hk hterm hprev
    have hfuel : k < numPolls WORKFLOW_TIMEOUT_MINUTES DAEMON_POLL_INTERVAL :=
      (numPolls_lt _ _ k (by norm_num [DAEMON_POLL_INTERVAL])).mpr hk
    have hterm' : isTerminal (statusStr (σ k)) = true :=
      (isTerminal_statusStr _).mpr hterm
    have hprev' : ∀ i < k, isTerminal (statusStr (σ i)) = false := by
      intro i hi
      rw [← Bool.not_eq_true, isTerminal_statusStr]
      exact hprev i hi
    unfold poll_workflow_completion
    have := pollLoop_first (fun n => statusStr (σ n))
      (numPolls WORKFLOW_TIMEOUT_MINUTES DAEMON_POLL_INTERVAL) 0 k hfuel
      (by simpa using hterm') (by simpa using hprev')
    simpa using this

lemma starterBlocks_safe :
    ∀ (m k c : ℕ),
      (runEv (c, c) ((starterBlocks m).take k)).1 ≤
        (runEv (c, c) ((starterBlocks m).take k)).2 + 1 := by
  intro m
  induction m with
  | zero => intro k c; simp [starterBlocks, runEv]
  | succ m ih =>
    intro k c
    match k with
    | 0 => simp [runEv]
    | 1 => simp [starterBlocks, runEv, evStep]
    | Nat.succ (Nat.succ k) =>
      have hstep : (starterBlocks (m + 1)).take (k + 2) =
          AgentEv.complete :: AgentEv.persist ::
            (starterBlocks m).take k := rfl
      rw [hstep]
      have hrun : runEv (c, c) (AgentEv.complete :: AgentEv.persist ::
          (starterBlocks m).take k) =
          runEv (c + 1, c + 1) ((starterBlocks m).take k) := rfl
      rw [hrun]
      exact ih k (c + 1)

/-- C4 amended: in `starter_agent.py` the run history is written to
durable storage after every completed iteration, so at every prefix of
the run's event trace at most one completed iteration is not yet
persisted; in `basic_agent.py`, however, the history is written only
once after the loop, so a crash mid-run loses every prior iteration's
record, not just the in-flight one. -/
theorem C4_starter_crash_safe (n k : ℕ) :
    (runEv (0, 0) ((starterTrace n).take k)).1 ≤
      (runEv (0, 0) ((starterTrace n).take k)).2 + 1 :=
  starterBlocks_safe (agentIterCount n) k 0

/-- C4 counterexample: in a 2-iteration run of `basic_agent.py`, kill
the process right after the second iteration completes (prefix of
length 2 of its trace): two iterations are complete but zero are
persisted, losing both prior records — the claimed bound of at most one
lost iteration fails. -/
theorem C4_counterexample :
    ¬ ((runEv (0, 0) ((basicTrace 2).take 2)).1 ≤
        (runEv (0, 0) ((basicTrace 2).take 2)).2 + 1) := by
  decide
